import Mathlib

/-!
Verification of the `zvshlib/zvsh.py` module of zerovm-cli.

Strings are shallowly embedded as `List Char`.  Python primitives that the
source relies on (`str.split`, `str.replace`, `int()`, `str` of an integer,
`%`-formatting of decimals) are modelled explicitly below; all program
functions are translated from the source file `zvshlib/zvsh.py`.  The code
base is Python 2 (it uses `basestring`, `iteritems`), so `int()` is modelled
as: optional surrounding whitespace, an optional sign, then one or more
decimal digits.
-/

namespace Zvsh

/-- The decimal digit character for `n` (used for `str(i)` of integers). -/
def digitChar : Nat → Char
  | 0 => '0' | 1 => '1' | 2 => '2' | 3 => '3' | 4 => '4'
  | 5 => '5' | 6 => '6' | 7 => '7' | 8 => '8' | _ => '9'

/-- Numeric value of a digit string (left fold, most significant first),
starting from accumulator `a`. -/
def digitsValFrom (a : Nat) (l : List Char) : Nat :=
  l.foldl (fun acc c => 10 * acc + (c.toNat - 48)) a

/-- Numeric value of a digit string. -/
def digitsVal (l : List Char) : Nat := digitsValFrom 0 l

/-- Fuelled decimal printer (structural recursion so that the kernel can
evaluate it; the fuel is always at least the printed value). -/
def natToDigitsFuel : Nat → Nat → List Char → List Char
  | _, 0, acc => acc
  | 0, _ + 1, acc => acc
  | f + 1, n + 1, acc =>
    natToDigitsFuel f ((n + 1) / 10) (digitChar ((n + 1) % 10) :: acc)

/-- Accumulator-style decimal printer for positive naturals. -/
def natToDigitsAux (n : Nat) (acc : List Char) : List Char :=
  natToDigitsFuel n n acc

/-- Model of Python `str(n)` for a natural number `n`. -/
def natToDigits (n : Nat) : List Char :=
  if n = 0 then ['0'] else natToDigitsAux n []

/-- Model of Python `str(i)` for an integer `i`. -/
def intToDigits (i : Int) : List Char :=
  if i < 0 then '-' :: natToDigits i.natAbs else natToDigits i.toNat

/-- Characters Python strips around an `int()` literal. -/
def isPySpace (c : Char) : Bool :=
  c.toNat = 32 || c.toNat = 9 || c.toNat = 10 || c.toNat = 13 ||
  c.toNat = 11 || c.toNat = 12

/-- Parse a nonempty all-digit string, else `none`. -/
def parseDigits? (l : List Char) : Option Nat :=
  if l ≠ [] ∧ l.all (·.isDigit) then some (digitsVal l) else none

/-- Strip leading and trailing Python whitespace. -/
def pyStrip (s : List Char) : List Char :=
  ((s.dropWhile isPySpace).reverse.dropWhile isPySpace).reverse

/-- Sign-and-digits part of the `int()` model, applied after stripping. -/
def pyIntCore : List Char → Option Int
  | [] => none
  | c :: rest =>
    if c = '-' then (parseDigits? rest).map (fun m => -(m : Int))
    else if c = '+' then (parseDigits? rest).map (fun m => (m : Int))
    else (parseDigits? (c :: rest)).map (fun m => (m : Int))

/-- Model of Python 2 `int(s)`: optional whitespace, optional sign, digits.
Returns `none` where Python raises `ValueError`. -/
def pyInt? (s : List Char) : Option Int :=
  pyIntCore (pyStrip s)

/-- Model of Python `s.split(sep)` (no maxsplit); `acc` holds the current
field, reversed. -/
def pySplitAll (sep : Char) (acc : List Char) : List Char → List (List Char)
  | [] => [acc.reverse]
  | c :: cs =>
    if c = sep then acc.reverse :: pySplitAll sep [] cs
    else pySplitAll sep (c :: acc) cs

/-- Model of Python `s.split(sep, maxsplit)`; the first argument counts the
remaining permitted splits. -/
def pySplitN (sep : Char) : Nat → List Char → List Char → List (List Char)
  | _, acc, [] => [acc.reverse]
  | 0, acc, s => [acc.reverse ++ s]
  | n + 1, acc, c :: cs =>
    if c = sep then acc.reverse :: pySplitN sep n [] cs
    else pySplitN sep (n + 1) (c :: acc) cs

/-- `s.split(sep)`. -/
def pySplit (sep : Char) (s : List Char) : List (List Char) := pySplitAll sep [] s

/-- `s.split(sep, m)`. -/
def pySplitMax (sep : Char) (m : Nat) (s : List Char) : List (List Char) :=
  pySplitN sep m [] s

/-- Fuelled worker for `str.replace` (structural recursion on the fuel so
that the kernel can evaluate it; the fuel always bounds the length of the
remaining string). -/
def pyReplaceFuel (p : Char) (ps r : List Char) : Nat → List Char → List Char
  | _, [] => []
  | 0, s => s
  | f + 1, c :: cs =>
    if (p :: ps).isPrefixOf (c :: cs) then
      r ++ pyReplaceFuel p ps r f (cs.drop ps.length)
    else c :: pyReplaceFuel p ps r f cs

/-- Model of Python `s.replace(pat, repl)` for a nonempty pattern
`p :: ps`: leftmost-first, non-overlapping. -/
def pyReplace (p : Char) (ps r s : List Char) : List Char :=
  pyReplaceFuel p ps r s.length s

/-- Model of Python `s.replace(pat, repl)`.  (The empty-pattern case never
occurs in the translated code.) -/
def pyReplaceStr (pat r s : List Char) : List Char :=
  match pat with
  | [] => s
  | p :: ps => pyReplace p ps r s

/-! ### Data model translated from `zvshlib/zvsh.py` -/

/-- The Python exception outcomes distinguished by the claims. -/
inductive PyErr
  | indexError
  | valueError
  | runtimeError
deriving DecidableEq, Repr

deriving instance DecidableEq for Except

/-- Read/write limits (the `limits` dict: keys reads/rbytes/writes/wbytes). -/
structure Limits where
  reads : Nat
  rbytes : Nat
  writes : Nat
  wbytes : Nat
deriving DecidableEq, Repr, Inhabited

/-- `Channel.__init__` state.  The Python attribute `alias` is spelled
`alias_` here because `alias` is a Lean keyword. -/
structure Channel where
  uri : List Char
  alias_ : List Char
  access_type : Nat
  access : List Char
  mount_dir : List Char
  etag : Nat
  reads : Nat
  rbytes : Nat
  writes : Nat
  wbytes : Nat
  mode : List Char
  is_image : Bool
deriving DecidableEq, Repr, Inhabited

/-- `SEQ_READ_SEQ_WRITE = 0`. -/
def SEQ_READ_SEQ_WRITE : Nat := 0

/-- `RND_READ_RND_WRITE = 3`. -/
def RND_READ_RND_WRITE : Nat := 3

/-- `Channel.__str__` / `Channel.to_manifest`:
`'Channel = %s,%s,%s,%s,%s,%s,%s,%s' % (uri, alias, access_type, etag,
reads, rbytes, writes, wbytes)`. -/
def Channel.to_manifest (c : Channel) : List Char :=
  "Channel = ".data ++ c.uri ++ ",".data ++ c.alias_ ++ ",".data ++
    natToDigits c.access_type ++ ",".data ++ natToDigits c.etag ++ ",".data ++
    natToDigits c.reads ++ ",".data ++ natToDigits c.rbytes ++ ",".data ++
    natToDigits c.writes ++ ",".data ++ natToDigits c.wbytes

/-- The comma-separated fields of a manifest Channel line, after the
`'Channel = '` prefix (10 characters). -/
def manifestLineFields (c : Channel) : List (List Char) :=
  pySplit ',' ((Channel.to_manifest c).drop 10)

/-- `Channel.to_nvram_fstab`. -/
def Channel.to_nvram_fstab (c : Channel) : List Char :=
  "channel=".data ++ c.alias_ ++ ",mountpoint=".data ++ c.mount_dir ++
    ",access=".data ++ c.access ++ ",removable=no".data

/-- `Channel.to_nvram_mapping`. -/
def Channel.to_nvram_mapping (c : Channel) : List Char :=
  "channel=".data ++ c.alias_ ++ ",mode=".data ++ c.mode

/-- `Manifest.__init__` state.  The scalar configuration fields arrive as
strings (from `ConfigParser`) or ints and are only ever `%s`-formatted, so
they are kept as strings here; `etag` is the int formatted in
`'%s,%s' % (memory, etag)`. -/
structure Manifest where
  program : List Char
  channels : List Channel
  version : List Char
  timeout : List Char
  memory : List Char
  node : List Char
  etag : Nat
deriving DecidableEq, Repr, Inhabited

/-- `Manifest.dumps`: raises `RuntimeError` on an empty channel list, else
formats `MANIFEST_TEMPLATE`. -/
def Manifest.dumps (m : Manifest) : Except PyErr (List Char) :=
  if m.channels = [] then .error .runtimeError
  else .ok ("Node = ".data ++ m.node ++ "\nVersion = ".data ++ m.version ++
    "\nTimeout = ".data ++ m.timeout ++ "\nMemory = ".data ++ m.memory ++
    ",".data ++ natToDigits m.etag ++ "\nProgram = ".data ++ m.program ++
    "\n".data ++ List.intercalate "\n".data (m.channels.map Channel.to_manifest))

/-- Lower-case hexadecimal digit character. -/
def hexDigitChar : Nat → Char
  | 0 => '0' | 1 => '1' | 2 => '2' | 3 => '3' | 4 => '4'
  | 5 => '5' | 6 => '6' | 7 => '7' | 8 => '8' | 9 => '9'
  | 10 => 'a' | 11 => 'b' | 12 => 'c' | 13 => 'd' | 14 => 'e' | _ => 'f'

/-- `'\\x%02x' % n` for a byte value `n < 256`. -/
def fmtHexByte (n : Nat) : List Char :=
  ['\\', 'x', hexDigitChar (n / 16 % 16), hexDigitChar (n % 16)]

/-- `_nvram_escape`: sequentially replaces each of `'\\'`, `'"'`, `','`,
`' '`, `'\n'` by its `\xHH` escape (backslash first, exactly as the source
loop `for c in '\\\\", \n'` iterates). -/
def _nvram_escape (value : List Char) : List Char :=
  (['\\', '"', ',', ' ', '\n']).foldl
    (fun v c => pyReplaceStr [c] (fmtHexByte c.toNat) v) value

/-- The characters `_nvram_escape` escapes. -/
def nvramSpecials : List Char := ['\\', '"', ',', ' ', '\n']

/-- Character-wise description of the escaping: a special character becomes
its hex escape, all others stay. -/
def escChar (c : Char) : List Char :=
  if c ∈ nvramSpecials then fmtHexByte c.toNat else [c]

/-- Hexadecimal digit character test. -/
def isHexDigitChar (c : Char) : Bool :=
  c.isDigit || ('a' ≤ c && c ≤ 'f') || ('A' ≤ c && c ≤ 'F')

/-- A string in which every special character occurs only inside a `\xHH`
escape block, i.e. no backslash, quote, comma, space or newline stands
unescaped. -/
def wellEscaped : List Char → Bool
  | [] => true
  | '\\' :: 'x' :: h1 :: h2 :: rest =>
    isHexDigitChar h1 && isHexDigitChar h2 && wellEscaped rest
  | '\\' :: _ => false
  | c :: cs => !(c ∈ nvramSpecials : Bool) && wellEscaped cs

/-- `NVRAM.__init__` state.  `env` is `None` or an insertion-ordered dict,
modelled as a key/value list. -/
structure NVRAM where
  program_args : List (List Char)
  channels : List Channel
  env : Option (List (List Char × List Char))
  debug_verbosity : Option Nat
deriving DecidableEq, Repr, Inhabited

/-- `NVRAM.dumps`: `NVRAM_TEMPLATE` with the escaped, space-joined args,
one fstab line per image channel, one mapping line per non-image channel,
then an `[env]` section when `env is not None` and a `[debug]` section when
`debug_verbosity is not None`. -/
def NVRAM.dumps (nv : NVRAM) : List Char :=
  let args := List.intercalate " ".data (nv.program_args.map _nvram_escape)
  let fstab := List.intercalate "\n".data
    ((nv.channels.filter (fun c => c.is_image)).map Channel.to_nvram_fstab)
  let mapping := List.intercalate "\n".data
    ((nv.channels.filter (fun c => !c.is_image)).map Channel.to_nvram_mapping)
  let base := "[args]\nargs = ".data ++ args ++ "\n[fstab]\n".data ++ fstab ++
    "\n[mapping]\n".data ++ mapping ++ "\n".data
  let withEnv :=
    match nv.env with
    | none => base
    | some e => base ++ "[env]\n".data ++
        (e.map (fun kv => "name=".data ++ kv.1 ++ ",value=".data ++
          _nvram_escape kv.2 ++ "\n".data)).flatten
  match nv.debug_verbosity with
  | none => withEnv
  | some v => withEnv ++ "[debug]\nverbosity=".data ++ natToDigits v ++ "\n".data

/-- The `[args]`/`[fstab]`/`[mapping]` part of the nvram text, as §4.2 of
the spec describes it (always present, fixed order). -/
def nvramMandatory (nv : NVRAM) : List Char :=
  "[args]\nargs = ".data ++
    List.intercalate " ".data (nv.program_args.map _nvram_escape) ++
  "\n[fstab]\n".data ++
    List.intercalate "\n".data
      ((nv.channels.filter (fun c => c.is_image)).map Channel.to_nvram_fstab) ++
  "\n[mapping]\n".data ++
    List.intercalate "\n".data
      ((nv.channels.filter (fun c => !c.is_image)).map Channel.to_nvram_mapping) ++
  "\n".data

/-- The `[env]` section of the nvram text (empty list when absent). -/
def nvramEnvSection (nv : NVRAM) : List Char :=
  match nv.env with
  | none => []
  | some e => "[env]\n".data ++
      (e.map (fun kv => "name=".data ++ kv.1 ++ ",value=".data ++
        _nvram_escape kv.2 ++ "\n".data)).flatten

/-- The `[debug]` section of the nvram text (empty list when absent). -/
def nvramDebugSection (nv : NVRAM) : List Char :=
  match nv.debug_verbosity with
  | none => []
  | some v => "[debug]\nverbosity=".data ++ natToDigits v ++ "\n".data

/-- Substring occurrence test (used to state that a section header appears
in the serialized nvram text). -/
def containsSub (pat : List Char) : List Char → Bool
  | [] => pat.isEmpty
  | c :: cs => pat.isPrefixOf (c :: cs) || containsSub pat cs

/-- Characters accepted by the key group of `ENV_MATCH = ([_A-Z0-9]+)=(.*)`. -/
def isEnvChar (c : Char) : Bool :=
  c = '_' || ('A' ≤ c && c ≤ 'Z') || c.isDigit

/-- `ENV_MATCH.match(s)`: a nonempty run of `[_A-Z0-9]` followed by `=`;
group 2 is `.*`, which stops at the first newline. -/
def envMatch (s : List Char) : Option (List Char × List Char) :=
  let key := s.takeWhile isEnvChar
  match s.drop key.length with
  | '=' :: v =>
    if key = [] then none else some (key, v.takeWhile (fun c => c ≠ '\n'))
  | _ => none

/-- `OrderedDict` assignment `d[k] = v`: update in place, else append. -/
def envInsert : List (List Char × List Char) → List Char → List Char →
    List (List Char × List Char)
  | [], k, v => [(k, v)]
  | (k', v') :: rest, k, v =>
    if k' = k then (k', v) :: rest else (k', v') :: envInsert rest k v

/-- Dict lookup `d[k]`. -/
def envLookup (k : List Char) : List (List Char × List Char) → Option (List Char)
  | [] => none
  | (k', v') :: rest => if k' = k then some v' else envLookup k rest

/-- `os.path.basename`: everything after the last slash. -/
def basename (p : List Char) : List Char := (pySplit '/' p).getLastD []

/-- `'/dev/%(ordinal)s.%(fn)s'`. -/
def mkDevAlias (o : Nat) (fn : List Char) : List Char :=
  "/dev/".data ++ natToDigits o ++ ".".data ++ fn

/-- The ordinal embedded in a `/dev/<ordinal>.<fn>` alias. -/
def ordinalOfAlias (a : List Char) : Nat :=
  digitsVal ((a.drop 5).takeWhile (fun c => c.isDigit))

/-- The ordinal embedded in a Channel's alias. -/
def channelOrdinal (c : Channel) : Nat := ordinalOfAlias c.alias_

/-- `[a, a+1, ..., a+n-1]`. -/
def ordRange : Nat → Nat → List Nat
  | _, 0 => []
  | a, n + 1 => a :: ordRange (a + 1) n

/-- Mutable state of `ZvArgs` during `process_args`, plus the loop-local
`channel_ordinal`. -/
structure ZvProcState where
  channels : List Channel
  processed_cmd_args : List (List Char)
  env : List (List Char × List Char)
  ordinal : Nat
deriving DecidableEq, Repr, Inhabited

/-- The Channel built for an `@file` argument:
`Channel(abs_filename, zvm_device, RND_READ_RND_WRITE, **limits)`. -/
def fileChannel (limits : Limits) (uri al : List Char) : Channel :=
  { uri := uri, alias_ := al, access_type := RND_READ_RND_WRITE,
    access := "ro".data, mount_dir := "/".data, etag := 0,
    reads := limits.reads, rbytes := limits.rbytes,
    writes := limits.writes, wbytes := limits.wbytes,
    mode := "file".data, is_image := false }

/-- The Channel built for a `--zvm-image` declaration. -/
def imageChannel (limits : Limits) (uri al acc mdir : List Char) : Channel :=
  { uri := uri, alias_ := al, access_type := RND_READ_RND_WRITE,
    access := acc, mount_dir := mdir, etag := 0,
    reads := limits.reads, rbytes := limits.rbytes,
    writes := limits.writes, wbytes := limits.wbytes,
    mode := "file".data, is_image := true }

/-- One iteration of the `for cmd_arg in self.args.cmd_args` loop of
`ZvArgs.process_args`.  `abspath` abstracts `os.path.abspath` (it depends
on the process working directory). -/
def processCmdArg (abspath : List Char → List Char) (limits : Limits)
    (st : ZvProcState) (arg : List Char) : ZvProcState :=
  match arg with
  | '@' :: rest =>
    match envMatch rest with
    | some (k, v) => { st with env := envInsert st.env k v }
    | none =>
      let absfn := abspath rest
      let dev := mkDevAlias st.ordinal (basename absfn)
      { st with
        processed_cmd_args := st.processed_cmd_args ++ [dev],
        channels := st.channels ++ [fileChannel limits absfn dev],
        ordinal := st.ordinal + 1 }
  | _ => { st with processed_cmd_args := st.processed_cmd_args ++ [arg] }

/-- An argument that allocates a file channel: marker-prefixed and not an
environment declaration. -/
def isFileTok : List Char → Bool
  | '@' :: rest => (envMatch rest).isNone
  | _ => false

/-- An argument recognised as `@NAME=value` with the given key. -/
def isEnvTokKey (k : List Char) : List Char → Bool
  | '@' :: rest =>
    match envMatch rest with
    | some (k', _) => k' = k
    | none => false
  | _ => false

/-- The if/elif chain of one `_process_images` iteration: split the image
spec on commas, defaulting `mount_dir` to `/` and `access` to `ro`.
`none` means no branch assigned `path` (a spec with more than two
commas). -/
def _process_image_split (img : List Char) :
    Option (List Char × List Char × List Char) :=
  match pySplit ',' img with
  | [p] => some (p, "/".data, "ro".data)
  | [p, m] => some (p, m, "ro".data)
  | [p, m, a] => some (p, m, a)
  | _ => none

/-- The tuple yielded for one image spec: the split result, or — when no
branch assigned `path` — the stale `path` from the previous iteration with
the freshly re-bound defaults, or `NameError` (`none`) on the first
iteration. -/
def _process_image_tuple (prev : Option (List Char)) (img : List Char) :
    Option (List Char × List Char × List Char) :=
  match _process_image_split img with
  | some t => some t
  | none => prev.map (fun p => (p, "/".data, "ro".data))

/-- `_process_images`: split each `--zvm-image` on commas with defaults
`/`, `ro`; the yielded `path` of a malformed spec (more than two commas)
is the previous iteration's, per `_process_image_tuple`. -/
def _process_images_aux (prev : Option (List Char)) :
    List (List Char) → Option (List (List Char × List Char × List Char))
  | [] => some []
  | img :: rest =>
    Option.elim (_process_image_tuple prev img) none
      (fun t => (_process_images_aux (some t.1) rest).map (fun l => t :: l))

/-- `_process_images` entry point. -/
def _process_images (imgs : List (List Char)) :
    Option (List (List Char × List Char × List Char)) :=
  _process_images_aux none imgs

/-- One iteration of the image loop of `ZvArgs.process_args`; the triple is
`(image, mount_dir, access)`. -/
def processImage (abspath : List Char → List Char) (limits : Limits)
    (st : ZvProcState) (t : List Char × List Char × List Char) : ZvProcState :=
  let absfn := abspath t.1
  let dev := mkDevAlias st.ordinal (basename absfn)
  { st with
    channels := st.channels ++ [imageChannel limits absfn dev t.2.2 t.2.1],
    ordinal := st.ordinal + 1 }

/-- `ZvArgs.process_args`: fold the command arguments, then the declared
images.  `none` models the `NameError` raised when the first image spec has
more than two commas. -/
def process_args (abspath : List Char → List Char) (limits : Limits)
    (cmd_args : List (List Char)) (zvm_image : Option (List (List Char)))
    (init_channel_ordinal : Nat) : Option ZvProcState :=
  let st0 : ZvProcState :=
    { channels := [], processed_cmd_args := [], env := [],
      ordinal := init_channel_ordinal }
  let st1 := cmd_args.foldl (processCmdArg abspath limits) st0
  match zvm_image with
  | none => some st1
  | some imgs =>
    (_process_images imgs).map (fun l => l.foldl (processImage abspath limits) st1)

/-- Outcome of `os.fstat(fd.fileno()).st_mode` probing: the four definite
types, some other type, or `AttributeError` (no real descriptor). -/
inductive FdStat
  | reg | blk | fifo | chr | othr | noFileno
deriving DecidableEq, Repr

/-- `_get_fd_mode`. -/
def _get_fd_mode : FdStat → Option (List Char)
  | .reg => some "file".data
  | .blk => some "block".data
  | .fifo => some "pipe".data
  | .chr => some "char".data
  | .othr => none
  | .noFileno => none

/-- Observable facts about one standard stream: `isatty()` plus the
descriptor probe. -/
structure StreamProbe where
  isatty : Bool
  fdstat : FdStat
deriving DecidableEq, Repr

/-- The per-stream branch of `prepare_channels`: returns the channel with
its final `mode` and whether it joins `nvram_channels`.  (In the source the
mode assignment mutates the object already appended to `manifest_channels`;
the pure model therefore resolves the mode first.) -/
def resolveStream (p : StreamProbe) (c : Channel) : Channel × Bool :=
  if p.isatty then ({ c with mode := "char".data }, true)
  else
    match _get_fd_mode p.fdstat with
    | some m => ({ c with mode := m }, true)
    | none => (c, false)

/-- `stdin_chan`. -/
def stdinChan (limits : Limits) : Channel :=
  { uri := "/dev/stdin".data, alias_ := "/dev/stdin".data,
    access_type := SEQ_READ_SEQ_WRITE, access := "ro".data,
    mount_dir := "/".data, etag := 0,
    reads := limits.reads, rbytes := limits.rbytes, writes := 0, wbytes := 0,
    mode := "file".data, is_image := false }

/-- `stdout_chan`. -/
def stdoutChan (working_dir node : List Char) (limits : Limits) : Channel :=
  { uri := working_dir ++ "/stdout.".data ++ node,
    alias_ := "/dev/stdout".data,
    access_type := SEQ_READ_SEQ_WRITE, access := "ro".data,
    mount_dir := "/".data, etag := 0,
    reads := 0, rbytes := 0, writes := limits.writes, wbytes := limits.wbytes,
    mode := "file".data, is_image := false }

/-- `stderr_chan`. -/
def stderrChan (working_dir node : List Char) (limits : Limits) : Channel :=
  { uri := working_dir ++ "/stderr.".data ++ node,
    alias_ := "/dev/stderr".data,
    access_type := SEQ_READ_SEQ_WRITE, access := "ro".data,
    mount_dir := "/".data, etag := 0,
    reads := 0, rbytes := 0, writes := limits.writes, wbytes := limits.wbytes,
    mode := "file".data, is_image := false }

/-- `prepare_channels`: the three standard-stream channels always join the
manifest list; each joins the nvram list per its probe; then the optional
fstab channels and the `zvargs.channels` extend both lists. -/
def prepare_channels (p1 p2 p3 : StreamProbe) (working_dir node : List Char)
    (limits : Limits) (fstab_channels : Option (List Channel))
    (zvargs_channels : List Channel) : List Channel × List Channel :=
  let r1 := resolveStream p1 (stdinChan limits)
  let r2 := resolveStream p2 (stdoutChan working_dir node limits)
  let r3 := resolveStream p3 (stderrChan working_dir node limits)
  let fs := fstab_channels.getD []
  ([r1.1, r2.1, r3.1] ++ fs ++ zvargs_channels,
   (if r1.2 then [r1.1] else []) ++ (if r2.2 then [r2.1] else []) ++
     (if r3.2 then [r3.1] else []) ++ fs ++ zvargs_channels)

/-- The three-way standard-stream policy of §4.4 of the spec, for one
stream: interactive terminal → mode `char` and mapped; definite probed
type → that mode and mapped; undeterminable → not mapped. -/
def streamPolicy (p : StreamProbe) (c : Channel) (included : Bool) : Prop :=
  (p.isatty = true → c.mode = "char".data ∧ included = true) ∧
  (p.isatty = false → ∀ m, _get_fd_mode p.fdstat = some m →
    c.mode = m ∧ included = true) ∧
  (p.isatty = false → _get_fd_mode p.fdstat = none → included = false)

/-- The marker string of the second accepted report form. -/
def ucrPattern : List Char := "user return code = ".data

/-- `parse_return_code`: third field of `report.split('\n', 5)`, parsed as
an int, retried after `replace('user return code = ', '')`.  Errors model
`IndexError` (fewer than three fields) and `ValueError` (both `int()` calls
fail). -/
def parse_return_code (report : List Char) : Except PyErr Int :=
  match (pySplitMax '\n' 5 report)[2]? with
  | none => .error .indexError
  | some rc =>
    match pyInt? rc with
    | some n => .ok n
    | none =>
      match pyInt? (pyReplaceStr ucrPattern [] rc) with
      | some n => .ok n
      | none => .error .valueError

/-- One entry of the working directory as `ZvRunner.print_error` sees it:
name, whether `stat.S_ISREG` holds, and the file content. -/
structure DirEntry where
  name : List Char
  isreg : Bool
  content : List Char
deriving DecidableEq, Repr

/-- The observable inputs of one `ZvRunner.run` invocation: the child's
`returncode`, the fully collected report (the report-collector thread is
joined before parsing), the working-directory listing, and the `getrc`
flag. -/
structure RunEnv where
  returncode : Int
  report : List Char
  files : List DirEntry
  getrc : Bool
  tmpdir : List Char
deriving DecidableEq, Repr

/-- Effects of the coordinating thread of `ZvRunner.run`: writes to the
error stream and the final `sys.exit`.  The three relay threads only copy
the child's streams and never touch the diagnostic dump or the exit code,
so they are not modelled. -/
inductive RunEffect
  | errWrite (s : List Char)
  | exitCode (rc : Int)
deriving DecidableEq, Repr

/-- `is_binary_string`: true iff some byte is outside
`{7,8,9,10,12,13,27} ∪ [0x20, 0x100)`. -/
def is_binary_string (byte_string : List Char) : Bool :=
  byte_string.any (fun c =>
    !(c.toNat = 7 || c.toNat = 8 || c.toNat = 9 || c.toNat = 10 ||
      c.toNat = 12 || c.toNat = 13 || c.toNat = 27 ||
      (32 ≤ c.toNat && c.toNat ≤ 255)))

/-- `'-' * n`. -/
def dashes (n : Nat) : List Char := List.replicate n '-'

/-- `ZvRunner.print_error`: per regular file either the name-only line (for
binary content) or the full dump, then the report, then the ERROR line. -/
def print_error (env : RunEnv) (rc : Int) : List RunEffect :=
  (env.files.flatMap (fun f =>
    if f.isreg then
      if is_binary_string (f.content.take 1024) then
        [RunEffect.errWrite (env.tmpdir ++ "/".data ++ f.name ++
          " is a binary file\n".data)]
      else
        [RunEffect.errWrite (dashes 10 ++ f.name ++ dashes 10 ++ "\n".data ++
          f.content ++ "\n".data ++ dashes 25 ++ "\n".data)]
    else []))
  ++ [RunEffect.errWrite env.report,
      RunEffect.errWrite ("ERROR: ZeroVM return code is ".data ++
        intToDigits rc ++ "\n".data)]

/-- The coordinator control flow of `ZvRunner.run` after the child exits:
`self.rc` becomes the parsed report code, or stays `-255` when parsing
raises (the exception is swallowed); the `finally` block dumps diagnostics
only when `returncode > 0`, then exits with the application code, or the
process code when `getrc` is set. -/
def ZvRunner_run (env : RunEnv) : List RunEffect :=
  let rc0 : Int :=
    match parse_return_code env.report with
    | .ok n => n
    | .error _ => -255
  (if 0 < env.returncode then print_error env env.returncode else [])
  ++ [RunEffect.exitCode (if env.getrc then env.returncode else rc0)]

/-! ### Basic lemmas about the digit printer/parser -/

theorem digitChar_toNat {m : Nat} (h : m < 10) :
    (digitChar m).toNat = 48 + m := by
  interval_cases m <;> decide

theorem digitChar_isDigit {m : Nat} (h : m < 10) :
    (digitChar m).isDigit = true := by
  interval_cases m <;> decide

theorem natToDigitsFuel_congr {n : Nat} :
    ∀ {f₁ f₂ : Nat} (acc : List Char), n ≤ f₁ → n ≤ f₂ →
      natToDigitsFuel f₁ n acc = natToDigitsFuel f₂ n acc := by
  induction n using Nat.strong_induction_on with
  | _ n ih =>
    intro f₁ f₂ acc h1 h2
    match n, f₁, f₂ with
    | 0, f₁, f₂ => cases f₁ <;> cases f₂ <;> rfl
    | m + 1, g + 1, h + 1 =>
      show natToDigitsFuel g ((m + 1) / 10) _ = natToDigitsFuel h ((m + 1) / 10) _
      have hd : (m + 1) / 10 < m + 1 := Nat.div_lt_self (Nat.succ_pos m) (by omega)
      exact ih _ hd _ (by omega) (by omega)

theorem natToDigitsAux_zero (acc : List Char) : natToDigitsAux 0 acc = acc := rfl

theorem natToDigitsAux_succ (m : Nat) (acc : List Char) :
    natToDigitsAux (m + 1) acc =
      natToDigitsAux ((m + 1) / 10) (digitChar ((m + 1) % 10) :: acc) := by
  have h1 : natToDigitsAux (m + 1) acc =
      natToDigitsFuel m ((m + 1) / 10) (digitChar ((m + 1) % 10) :: acc) := rfl
  rw [h1]
  have hd : (m + 1) / 10 < m + 1 := Nat.div_lt_self (Nat.succ_pos m) (by omega)
  exact natToDigitsFuel_congr _ (by omega) (Nat.le_refl _)

theorem natToDigitsAux_append (n : Nat) (acc : List Char) :
    natToDigitsAux n acc = natToDigitsAux n [] ++ acc := by
  induction n using Nat.strong_induction_on generalizing acc with
  | _ n ih =>
    match n with
    | 0 => simp [natToDigitsAux_zero]
    | m + 1 =>
      rw [natToDigitsAux_succ, natToDigitsAux_succ]
      rw [ih ((m + 1) / 10) (Nat.div_lt_self (Nat.succ_pos m) (by omega))
          (digitChar ((m + 1) % 10) :: acc),
        ih ((m + 1) / 10) (Nat.div_lt_self (Nat.succ_pos m) (by omega))
          [digitChar ((m + 1) % 10)]]
      simp

theorem natToDigitsAux_all_digits (n : Nat) :
    ∀ c ∈ natToDigitsAux n [], c.isDigit = true := by
  induction n using Nat.strong_induction_on with
  | _ n ih =>
    match n with
    | 0 => simp [natToDigitsAux_zero]
    | m + 1 =>
      rw [natToDigitsAux_succ, natToDigitsAux_append]
      intro c hc
      rcases List.mem_append.mp hc with h | h
      · exact ih _ (Nat.div_lt_self (Nat.succ_pos m) (by omega)) c h
      · rcases List.mem_singleton.mp h with rfl
        exact digitChar_isDigit (Nat.mod_lt _ (by omega))

theorem natToDigits_all_digits (n : Nat) :
    ∀ c ∈ natToDigits n, c.isDigit = true := by
  unfold natToDigits
  split
  · simp
  · exact natToDigitsAux_all_digits n

theorem natToDigitsAux_ne_nil (n : Nat) (h : n ≠ 0) :
    natToDigitsAux n [] ≠ [] := by
  match n with
  | m + 1 =>
    rw [natToDigitsAux_succ, natToDigitsAux_append]
    simp

theorem natToDigits_ne_nil (n : Nat) : natToDigits n ≠ [] := by
  unfold natToDigits
  split
  · simp
  · exact natToDigitsAux_ne_nil n (by assumption)

theorem digitsValFrom_append (a : Nat) (l₁ l₂ : List Char) :
    digitsValFrom a (l₁ ++ l₂) = digitsValFrom (digitsValFrom a l₁) l₂ := by
  simp [digitsValFrom, List.foldl_append]

theorem digitsValFrom_natToDigitsAux (n : Nat) (h : n ≠ 0) (a : Nat) :
    digitsValFrom a (natToDigitsAux n []) = a * 10 ^ (natToDigitsAux n []).length + n := by
  induction n using Nat.strong_induction_on generalizing a with
  | _ n ih =>
    match n with
    | 0 => exact absurd rfl h
    | m + 1 =>
      rw [natToDigitsAux_succ, natToDigitsAux_append]
      by_cases hz : (m + 1) / 10 = 0
      · rw [hz]
        have hm : (m + 1) % 10 < 10 := Nat.mod_lt _ (by omega)
        simp only [natToDigitsAux_zero, List.nil_append, digitsValFrom,
          List.foldl, List.length, digitChar_toNat hm]
        have : (m + 1) % 10 = m + 1 := by
          have := Nat.div_add_mod (m + 1) 10
          omega
        simp [pow_succ]
        omega
      · rw [digitsValFrom_append,
          ih ((m + 1) / 10) (Nat.div_lt_self (Nat.succ_pos m) (by omega)) hz]
        have hm : (m + 1) % 10 < 10 := Nat.mod_lt _ (by omega)
        have hdm := Nat.div_add_mod (m + 1) 10
        simp only [digitsValFrom, List.foldl, digitChar_toNat hm,
          Nat.add_sub_cancel_left, List.length_append, List.length_cons,
          List.length_nil, Nat.zero_add, pow_succ]
        generalize 10 ^ (natToDigitsAux ((m + 1) / 10) []).length = P
        have hmul : a * (P * 10) = 10 * (a * P) := by ring
        rw [hmul]
        generalize a * P = k
        omega

theorem digitsVal_natToDigits (n : Nat) : digitsVal (natToDigits n) = n := by
  unfold natToDigits
  split
  · next hz => subst hz; decide
  · next hz =>
    unfold digitsVal
    rw [digitsValFrom_natToDigitsAux n hz 0]
    simp

theorem isDigit_toNat {c : Char} (h : c.isDigit = true) :
    48 ≤ c.toNat ∧ c.toNat ≤ 57 := by
  simpa [Char.isDigit] using h

theorem isDigit_not_pyspace {c : Char} (h : c.isDigit = true) :
    isPySpace c = false := by
  obtain ⟨h1, h2⟩ := isDigit_toNat h
  simp only [isPySpace, Bool.or_eq_false_iff, decide_eq_false_iff_not]
  omega

theorem isDigit_ne_of_toNat {c d : Char} (h : c.isDigit = true)
    (hd : d.toNat < 48 ∨ 57 < d.toNat) : c ≠ d := by
  obtain ⟨h1, h2⟩ := isDigit_toNat h
  intro he
  subst he
  omega

theorem dropWhile_all_false {p : Char → Bool} :
    ∀ {l : List Char}, (∀ c ∈ l, p c = false) → l.dropWhile p = l
  | [], _ => rfl
  | c :: cs, h => by simp [List.dropWhile, h c (by simp)]

theorem pyStrip_eq_self {l : List Char} (h : ∀ c ∈ l, isPySpace c = false) :
    pyStrip l = l := by
  unfold pyStrip
  rw [dropWhile_all_false h, dropWhile_all_false (by
    intro c hc
    exact h c (List.mem_reverse.mp hc)), List.reverse_reverse]

theorem natToDigits_no_pyspace (n : Nat) :
    ∀ c ∈ natToDigits n, isPySpace c = false := fun c hc =>
  isDigit_not_pyspace (natToDigits_all_digits n c hc)

theorem intToDigits_no_pyspace (i : Int) :
    ∀ c ∈ intToDigits i, isPySpace c = false := by
  unfold intToDigits
  split
  · intro c hc
    rcases List.mem_cons.mp hc with rfl | h
    · decide
    · exact natToDigits_no_pyspace _ c h
  · exact natToDigits_no_pyspace _

theorem parseDigits_natToDigits (n : Nat) :
    parseDigits? (natToDigits n) = some n := by
  unfold parseDigits?
  rw [if_pos]
  · rw [digitsVal_natToDigits]
  · exact ⟨natToDigits_ne_nil n, List.all_eq_true.mpr (natToDigits_all_digits n)⟩

theorem pyIntCore_natToDigits (n : Nat) :
    pyIntCore (natToDigits n) = some (n : Int) := by
  obtain ⟨c, rest, hcr⟩ := List.exists_cons_of_ne_nil (natToDigits_ne_nil n)
  have hc : c.isDigit = true :=
    natToDigits_all_digits n c (by rw [hcr]; exact List.mem_cons_self c rest)
  rw [hcr, pyIntCore,
    if_neg (isDigit_ne_of_toNat hc (by left; decide)),
    if_neg (isDigit_ne_of_toNat hc (by left; decide)), ← hcr,
    parseDigits_natToDigits]
  rfl

/-- Round trip: Python `int(str(n))` recovers `n` (natural case). -/
theorem pyInt_natToDigits (n : Nat) : pyInt? (natToDigits n) = some (n : Int) := by
  rw [pyInt?, pyStrip_eq_self (natToDigits_no_pyspace n), pyIntCore_natToDigits]

/-- Round trip: Python `int(str(i))` recovers `i` for any integer. -/
theorem pyInt_intToDigits (i : Int) : pyInt? (intToDigits i) = some i := by
  rw [pyInt?, pyStrip_eq_self (intToDigits_no_pyspace i)]
  unfold intToDigits
  split
  · next hneg =>
    rw [pyIntCore, if_pos rfl, parseDigits_natToDigits]
    show some (-(Int.natAbs i : Int)) = some i
    congr 1
    omega
  · next hpos =>
    rw [pyIntCore_natToDigits]
    congr 1
    omega

/-! ### Lemmas about `pyReplace` and `pySplit` -/

theorem pyReplaceFuel_congr (p : Char) (ps r : List Char) :
    ∀ (f₁ : Nat) {f₂ : Nat} {s : List Char}, s.length ≤ f₁ → s.length ≤ f₂ →
      pyReplaceFuel p ps r f₁ s = pyReplaceFuel p ps r f₂ s := by
  intro f₁
  induction f₁ with
  | zero =>
    intro f₂ s h1 h2
    have hs : s = [] := List.eq_nil_of_length_eq_zero (Nat.le_zero.mp h1)
    subst hs
    cases f₂ <;> rfl
  | succ g ih =>
    intro f₂ s h1 h2
    cases s with
    | nil => cases f₂ <;> rfl
    | cons c cs =>
      cases f₂ with
      | zero => simp at h2
      | succ h =>
        simp only [List.length_cons, Nat.succ_le_succ_iff] at h1 h2
        by_cases hp : (p :: ps).isPrefixOf (c :: cs) = true
        · simp only [pyReplaceFuel, if_pos hp]
          congr 1
          exact ih (by simp only [List.length_drop]; omega)
            (by simp only [List.length_drop]; omega)
        · simp only [pyReplaceFuel, if_neg hp]
          congr 1
          exact ih h1 h2

theorem pyReplace_cons (p : Char) (ps r : List Char) (c : Char) (cs : List Char) :
    pyReplace p ps r (c :: cs) =
      if (p :: ps).isPrefixOf (c :: cs) then
        r ++ pyReplace p ps r (cs.drop ps.length)
      else c :: pyReplace p ps r cs := by
  unfold pyReplace
  simp only [List.length_cons, pyReplaceFuel]
  by_cases hp : (p :: ps).isPrefixOf (c :: cs) = true
  · rw [if_pos hp, if_pos hp]
    congr 1
    exact pyReplaceFuel_congr p ps r cs.length
      (by simp only [List.length_drop]; omega) (Nat.le_refl _)
  · rw [if_neg hp, if_neg hp]

theorem isPrefixOf_append_self : ∀ (l t : List Char), l.isPrefixOf (l ++ t) = true
  | [], _ => by simp
  | a :: as, t => by
    simp [List.isPrefixOf_cons₂, isPrefixOf_append_self as t]

theorem pyReplace_append_self (p : Char) (ps r t : List Char) :
    pyReplace p ps r (p :: ps ++ t) = r ++ pyReplace p ps r t := by
  rw [show p :: ps ++ t = p :: (ps ++ t) from rfl, pyReplace_cons, if_pos]
  · rw [List.drop_left]
  · exact isPrefixOf_append_self (p :: ps) t

theorem pyReplace_not_occur {p : Char} (ps r : List Char) :
    ∀ {s : List Char}, p ∉ s → pyReplace p ps r s = s
  | [], _ => rfl
  | c :: cs, h => by
    have hpc : p ≠ c := fun he => h (he ▸ List.mem_cons_self p cs)
    rw [pyReplace_cons, if_neg (by simp [List.isPrefixOf, hpc]),
      pyReplace_not_occur ps r (fun hm => h (List.mem_cons_of_mem c hm))]

theorem pySplitN_length (sep : Char) :
    ∀ (s : List Char) (n : Nat) (acc : List Char),
      (pySplitN sep n acc s).length = min (s.count sep) n + 1 := by
  intro s
  induction s with
  | nil => intro n acc; cases n <;> simp [pySplitN]
  | cons c cs ih =>
    intro n acc
    cases n with
    | zero => simp [pySplitN]
    | succ m =>
      by_cases hc : c = sep
      · subst hc
        have hstep : pySplitN c (m + 1) acc (c :: cs) =
            acc.reverse :: pySplitN c m [] cs := by simp [pySplitN]
        rw [hstep]
        simp only [List.length_cons, ih m []]
        have hcount : (c :: cs).count c = cs.count c + 1 := by
          simp [List.count_cons]
        rw [hcount, Nat.succ_min_succ]
      · have hstep : pySplitN sep (m + 1) acc (c :: cs) =
            pySplitN sep (m + 1) (c :: acc) cs := by simp [pySplitN, hc]
        rw [hstep, ih (m + 1) (c :: acc)]
        have hcount : (c :: cs).count sep = cs.count sep := by
          simp [List.count_cons, hc]
        rw [hcount]

/-! ### Lemmas for the report parser -/

theorem dropWhile_cons_of_false {p : Char → Bool} {c : Char} {cs : List Char}
    (h : p c = false) : (c :: cs).dropWhile p = c :: cs := by
  simp [List.dropWhile, h]

theorem pyStrip_cons_concat {c d : Char} (mid : List Char)
    (hc : isPySpace c = false) (hd : isPySpace d = false) :
    pyStrip (c :: (mid ++ [d])) = c :: (mid ++ [d]) := by
  unfold pyStrip
  rw [dropWhile_cons_of_false hc]
  have hrev : (c :: (mid ++ [d])).reverse = d :: (mid.reverse ++ [c]) := by simp
  rw [hrev, dropWhile_cons_of_false hd, ← hrev, List.reverse_reverse]

theorem intToDigits_ne_nil (i : Int) : intToDigits i ≠ [] := by
  unfold intToDigits
  split
  · simp
  · exact natToDigits_ne_nil _

theorem intToDigits_toNat_lt (i : Int) : ∀ c ∈ intToDigits i, c.toNat < 58 := by
  unfold intToDigits
  split
  · intro c hc
    rcases List.mem_cons.mp hc with rfl | h
    · decide
    · have := isDigit_toNat (natToDigits_all_digits _ c h)
      omega
  · intro c hc
    have := isDigit_toNat (natToDigits_all_digits _ c hc)
    omega

theorem parseDigits_cons_not_digit {c : Char} (h : c.isDigit = false)
    (l : List Char) : parseDigits? (c :: l) = none := by
  simp [parseDigits?, h]

theorem pyInt_ucr_append_none (i : Int) :
    pyInt? (ucrPattern ++ intToDigits i) = none := by
  rcases (intToDigits i).eq_nil_or_concat with h | ⟨L, b, hLb⟩
  · exact absurd h (intToDigits_ne_nil i)
  · rw [List.concat_eq_append] at hLb
    have hb : isPySpace b = false :=
      intToDigits_no_pyspace i b
        (by rw [hLb]; exact List.mem_append_right L (List.mem_singleton_self b))
    have hshape : ucrPattern ++ intToDigits i =
        'u' :: (("ser return code = ".data ++ L) ++ [b]) := by
      rw [hLb, show ucrPattern = 'u' :: "ser return code = ".data from rfl,
        List.cons_append]
      rw [List.append_assoc]
    rw [pyInt?, hshape, pyStrip_cons_concat _ (by decide) hb, pyIntCore,
      if_neg (by decide), if_neg (by decide),
      parseDigits_cons_not_digit (by decide)]
    rfl

theorem pyReplace_ucr_append (i : Int) :
    pyReplaceStr ucrPattern [] (ucrPattern ++ intToDigits i) = intToDigits i := by
  have hu : 'u' ∉ intToDigits i :=
    fun hm => absurd (intToDigits_toNat_lt i 'u' hm) (by decide)
  show pyReplace 'u' "ser return code = ".data []
    (('u' :: "ser return code = ".data) ++ intToDigits i) = intToDigits i
  rw [pyReplace_append_self, pyReplace_not_occur _ _ hu]
  simp

/-! ### Claims C1 and C10: the report return-code protocol -/

/-- Claim C1: for every report string whose third newline-delimited field is
either a bare integer `n` or the string `user return code = n`,
`parse_return_code` returns the integer `n`; both forms yield the
application return code. -/
theorem claim_c1_parse_return_code (r : List Char) (n : Int) (f : List Char)
    (h : (pySplitMax '\n' 5 r)[2]? = some f)
    (hf : f = intToDigits n ∨ f = ucrPattern ++ intToDigits n) :
    parse_return_code r = .ok n := by
  unfold parse_return_code
  rw [h]
  dsimp only
  rcases hf with rfl | rfl
  · rw [pyInt_intToDigits]
  · rw [pyInt_ucr_append_none, pyReplace_ucr_append, pyInt_intToDigits]

/-- Witness for C1 at the two examples of the spec: report
`"zvm\nOK\n0\nextra\n"` yields 0 and a report whose third line is
`"user return code = 7"` yields 7. -/
theorem claim_c1_witness :
    parse_return_code "zvm\nOK\n0\nextra\n".data = .ok 0 ∧
    parse_return_code "a\nb\nuser return code = 7\n".data = .ok 7 :=
  ⟨claim_c1_parse_return_code _ 0 "0".data (by decide) (Or.inl (by decide)),
   claim_c1_parse_return_code _ 7 "user return code = 7".data (by decide)
     (Or.inr (by decide))⟩

/-- Claim C10 (amended): `parse_return_code` raises `IndexError` on fewer
than three newline-delimited fields, raises `ValueError` when the third
field neither parses as an integer directly nor after deleting every
occurrence of `'user return code = '`, and returns normally exactly when
one of those two `int()` calls succeeds. -/
theorem claim_c10_parse_partiality (r : List Char) :
    (r.count '\n' < 2 → parse_return_code r = .error .indexError) ∧
    (∀ f, (pySplitMax '\n' 5 r)[2]? = some f → pyInt? f = none →
      pyInt? (pyReplaceStr ucrPattern [] f) = none →
      parse_return_code r = .error .valueError) ∧
    (∀ n : Int, parse_return_code r = .ok n ↔
      ∃ f, (pySplitMax '\n' 5 r)[2]? = some f ∧
        (pyInt? f = some n ∨
          (pyInt? f = none ∧ pyInt? (pyReplaceStr ucrPattern [] f) = some n))) := by
  refine ⟨?_, ?_, ?_⟩
  · intro hcount
    have hlen : (pySplitMax '\n' 5 r).length = min (r.count '\n') 5 + 1 :=
      pySplitN_length '\n' r 5 []
    have hnone : (pySplitMax '\n' 5 r)[2]? = none := by
      apply List.getElem?_eq_none
      omega
    unfold parse_return_code
    rw [hnone]
  · intro f hf h1 h2
    unfold parse_return_code
    rw [hf]
    dsimp only
    rw [h1, h2]
  · intro n
    unfold parse_return_code
    cases hs : (pySplitMax '\n' 5 r)[2]? with
    | none => simp
    | some f =>
      cases hi : pyInt? f with
      | some m => simp [hi]
      | none =>
        cases hi2 : pyInt? (pyReplaceStr ucrPattern [] f) with
        | some m => simp [hi, hi2]
        | none => simp [hi, hi2]

/-- Witness for C10 (amended) at concrete failing reports. -/
theorem claim_c10_witness :
    parse_return_code "ab".data = .error .indexError ∧
    parse_return_code "a\nb\nxy\n".data = .error .valueError :=
  ⟨(claim_c10_parse_partiality _).1 (by decide),
   (claim_c10_parse_partiality _).2.1 "xy".data (by decide) (by decide)
     (by decide)⟩

/-- Counterexample to C10 as stated: the third field
`"1user return code = 2"` is neither a bare integer nor of the form
`user return code = N`, yet `parse_return_code` returns 12 instead of
raising, because `str.replace` deletes every occurrence of the marker. -/
theorem claim_c10_counterexample :
    parse_return_code "a\nb\n1user return code = 2".data = .ok 12 ∧
    (∀ n : Int, "1user return code = 2".data ≠ intToDigits n ∧
      "1user return code = 2".data ≠ ucrPattern ++ intToDigits n) := by
  refine ⟨by decide, fun n => ⟨fun he => ?_, fun he => ?_⟩⟩
  · have hmem : 'u' ∈ intToDigits n := by
      rw [← he]; decide
    exact absurd (intToDigits_toNat_lt n 'u' hmem) (by decide)
  · have h1 : ("1user return code = 2".data).head? = some '1' := rfl
    rw [he] at h1
    have h2 : (ucrPattern ++ intToDigits n).head? = some 'u' := rfl
    rw [h2] at h1
    exact absurd h1 (by decide)

/-! ### Claim C3: Manifest serialization totality -/

/-- Claim C3: `Manifest.dumps` succeeds for every Manifest with at least one
Channel, and raises the configuration error (RuntimeError) exactly when the
channel sequence is empty, producing no manifest text. -/
theorem claim_c3_manifest_dumps (m : Manifest) :
    (m.channels ≠ [] → ∃ s, m.dumps = Except.ok s) ∧
    (m.channels = [] → m.dumps = Except.error PyErr.runtimeError) := by
  constructor
  · intro h
    unfold Manifest.dumps
    rw [if_neg h]
    exact ⟨_, rfl⟩
  · intro h
    unfold Manifest.dumps
    rw [if_pos h]

/-- Witness for C3: a one-channel manifest serializes, the channel-less one
raises. -/
theorem claim_c3_witness :
    (∃ s, Manifest.dumps
      ⟨"/x/boot.1".data,
       [⟨"/dev/stdin".data, "/dev/stdin".data, 0, "ro".data, "/".data, 0,
         1, 2, 3, 4, "file".data, false⟩],
       "20130611".data, "50".data, "4294967296".data, "1".data, 0⟩ =
        Except.ok s) ∧
    Manifest.dumps
      ⟨"/x/boot.1".data, [], "20130611".data, "50".data, "4294967296".data,
       "1".data, 0⟩ = Except.error PyErr.runtimeError :=
  ⟨(claim_c3_manifest_dumps _).1 (by decide),
   (claim_c3_manifest_dumps _).2 rfl⟩

/-! ### Claim C8: Channel manifest line fields -/

theorem comma_not_mem_natToDigits (n : Nat) : ',' ∉ natToDigits n :=
  fun hm => absurd (isDigit_toNat (natToDigits_all_digits n ',' hm)).1 (by decide)

theorem pySplitAll_no_sep {sep : Char} :
    ∀ {l : List Char} (acc : List Char), sep ∉ l →
      pySplitAll sep acc l = [acc.reverse ++ l]
  | [], acc, _ => by simp [pySplitAll]
  | c :: cs, acc, h => by
    have hcs : sep ∉ cs := fun hm => h (List.mem_cons_of_mem c hm)
    have hc : ¬(c = sep) := fun he => h (he ▸ List.mem_cons_self c cs)
    simp [pySplitAll, hc, pySplitAll_no_sep (c :: acc) hcs]

theorem pySplitAll_sep_append {sep : Char} :
    ∀ {l₁ : List Char} (acc l₂ : List Char), sep ∉ l₁ →
      pySplitAll sep acc (l₁ ++ sep :: l₂) =
        (acc.reverse ++ l₁) :: pySplitAll sep [] l₂
  | [], acc, l₂, _ => by simp [pySplitAll]
  | c :: cs, acc, l₂, h => by
    have hcs : sep ∉ cs := fun hm => h (List.mem_cons_of_mem c hm)
    have hc : ¬(c = sep) := fun he => h (he ▸ List.mem_cons_self c cs)
    simp [pySplitAll, hc, pySplitAll_sep_append (c :: acc) l₂ hcs]

/-- Claim C8 (amended): for every Channel whose hostURI and alias contain no
comma, the manifest line after `'Channel = '` splits into exactly the
8 fields hostURI, alias, accessPattern, etagFlag, readOpLimit,
readByteLimit, writeOpLimit, writeByteLimit, rendered as plain decimals,
and the numeric limits round-trip unchanged. -/
theorem claim_c8_channel_fields (c : Channel)
    (hu : ',' ∉ c.uri) (ha : ',' ∉ c.alias_) :
    manifestLineFields c =
      [c.uri, c.alias_, natToDigits c.access_type, natToDigits c.etag,
       natToDigits c.reads, natToDigits c.rbytes, natToDigits c.writes,
       natToDigits c.wbytes] ∧
    (manifestLineFields c).length = 8 ∧
    ((manifestLineFields c).drop 4).map digitsVal =
      [c.reads, c.rbytes, c.writes, c.wbytes] := by
  have hfields : manifestLineFields c =
      [c.uri, c.alias_, natToDigits c.access_type, natToDigits c.etag,
       natToDigits c.reads, natToDigits c.rbytes, natToDigits c.writes,
       natToDigits c.wbytes] := by
    unfold manifestLineFields pySplit Channel.to_manifest
    have hshape :
        ("Channel = ".data ++ c.uri ++ ",".data ++ c.alias_ ++ ",".data ++
          natToDigits c.access_type ++ ",".data ++ natToDigits c.etag ++
          ",".data ++ natToDigits c.reads ++ ",".data ++
          natToDigits c.rbytes ++ ",".data ++ natToDigits c.writes ++
          ",".data ++ natToDigits c.wbytes).drop 10 =
        c.uri ++ ',' :: (c.alias_ ++ ',' :: (natToDigits c.access_type ++
          ',' :: (natToDigits c.etag ++ ',' :: (natToDigits c.reads ++
          ',' :: (natToDigits c.rbytes ++ ',' :: (natToDigits c.writes ++
          ',' :: natToDigits c.wbytes)))))) := by
      simp only [List.append_assoc]
      rw [show (10 : Nat) = ("Channel = ".data).length from rfl, List.drop_left]
      simp
    rw [hshape,
      pySplitAll_sep_append [] _ hu,
      pySplitAll_sep_append [] _ ha,
      pySplitAll_sep_append [] _ (comma_not_mem_natToDigits _),
      pySplitAll_sep_append [] _ (comma_not_mem_natToDigits _),
      pySplitAll_sep_append [] _ (comma_not_mem_natToDigits _),
      pySplitAll_sep_append [] _ (comma_not_mem_natToDigits _),
      pySplitAll_sep_append [] _ (comma_not_mem_natToDigits _),
      pySplitAll_no_sep [] (comma_not_mem_natToDigits _)]
    simp
  refine ⟨hfields, by rw [hfields]; rfl, ?_⟩
  rw [hfields]
  simp only [List.drop, List.map]
  rw [digitsVal_natToDigits, digitsVal_natToDigits, digitsVal_natToDigits,
    digitsVal_natToDigits]

/-- Witness for C8 (amended) at a concrete comma-free channel. -/
theorem claim_c8_witness :
    (manifestLineFields
      ⟨"/dev/stdin".data, "/dev/stdin".data, 0, "ro".data, "/".data, 0,
       4294967296, 4294967296, 0, 0, "file".data, false⟩).length = 8 :=
  (claim_c8_channel_fields _ (by decide) (by decide)).2.1

/-- Counterexample to C8 as stated: a Channel whose hostURI contains a comma
serializes to 9 comma-separated fields, not 8. -/
theorem claim_c8_counterexample :
    (manifestLineFields
      ⟨"a,b".data, "/dev/x".data, 3, "ro".data, "/".data, 0,
       1, 2, 3, 4, "file".data, false⟩).length = 9 ∧
    ¬(manifestLineFields
      ⟨"a,b".data, "/dev/x".data, 3, "ro".data, "/".data, 0,
       1, 2, 3, 4, "file".data, false⟩).length = 8 := by
  constructor
  · decide
  · decide

/-! ### Claim C4: nvram value escaping -/

theorem pyReplace_single (c : Char) (r : List Char) :
    ∀ (s : List Char), pyReplaceStr [c] r s =
      s.flatMap (fun a => if a = c then r else [a])
  | [] => rfl
  | a :: as => by
    show pyReplace c [] r (a :: as) = _
    rw [pyReplace_cons]
    by_cases hac : a = c
    · rw [if_pos (by simp [List.isPrefixOf_cons₂, hac])]
      simp only [List.flatMap_cons, List.length_nil, List.drop_zero,
        if_pos hac]
      congr 1
      exact pyReplace_single c r as
    · rw [if_neg (by simp [List.isPrefixOf_cons₂]; exact fun h => hac h.symm)]
      simp only [List.flatMap_cons, if_neg hac, List.singleton_append]
      congr 1
      exact pyReplace_single c r as

theorem flatMap_flatMap_assoc (f g : Char → List Char) :
    ∀ (s : List Char),
      (s.flatMap f).flatMap g = s.flatMap (fun a => (f a).flatMap g)
  | [] => rfl
  | a :: as => by
    simp only [List.flatMap_cons, List.flatMap_append,
      flatMap_flatMap_assoc f g as]

theorem flatMap_congr {f g : Char → List Char} (h : ∀ a, f a = g a)
    (s : List Char) : s.flatMap f = s.flatMap g := by
  rw [funext h]

theorem wellEscaped_cons_other {a : Char} (h : a ≠ '\\') (cs : List Char) :
    wellEscaped (a :: cs) = (!(a ∈ nvramSpecials : Bool) && wellEscaped cs) := by
  rw [wellEscaped]
  · exact fun _ _ _ ha _ => h ha
  · exact h

theorem hexDigitChar_ge (m : Nat) : 48 ≤ (hexDigitChar m).toNat := by
  match m with
  | 0 => decide
  | 1 => decide
  | 2 => decide
  | 3 => decide
  | 4 => decide
  | 5 => decide
  | 6 => decide
  | 7 => decide
  | 8 => decide
  | 9 => decide
  | 10 => decide
  | 11 => decide
  | 12 => decide
  | 13 => decide
  | 14 => decide
  | n + 15 => exact (by decide : (48 : Nat) ≤ 'f'.toNat)

theorem fmtHexByte_toNat_ge (n : Nat) : ∀ c ∈ fmtHexByte n, 48 ≤ c.toNat := by
  intro c hc
  unfold fmtHexByte at hc
  simp only [List.mem_cons, List.mem_singleton] at hc
  rcases hc with rfl | rfl | rfl | rfl | h
  · decide
  · decide
  · exact hexDigitChar_ge _
  · exact hexDigitChar_ge _
  · exact absurd h (List.not_mem_nil c)

/-- The five sequential `str.replace` passes of `_nvram_escape` coincide
with the character-wise substitution `escChar`. -/
theorem nvram_escape_eq_flatMap (v : List Char) :
    _nvram_escape v = v.flatMap escChar := by
  unfold _nvram_escape
  simp only [List.foldl_cons, List.foldl_nil]
  rw [pyReplace_single, pyReplace_single, pyReplace_single, pyReplace_single,
    pyReplace_single]
  rw [flatMap_flatMap_assoc, flatMap_flatMap_assoc, flatMap_flatMap_assoc,
    flatMap_flatMap_assoc]
  refine flatMap_congr (fun a => ?_) v
  by_cases h1 : a = '\\'
  · subst h1; decide
  by_cases h2 : a = '"'
  · subst h2; decide
  by_cases h3 : a = ','
  · subst h3; decide
  by_cases h4 : a = ' '
  · subst h4; decide
  by_cases h5 : a = '\n'
  · subst h5; decide
  simp [h1, h2, h3, h4, h5, escChar, nvramSpecials]

/-- The escaped text parses as a sequence of ordinary non-special
characters and `\xHH` blocks: no special character stands unescaped. -/
theorem wellEscaped_nvram_escape (v : List Char) :
    wellEscaped (_nvram_escape v) = true := by
  rw [nvram_escape_eq_flatMap]
  induction v with
  | nil => rfl
  | cons a as ih =>
    rw [List.flatMap_cons]
    by_cases h1 : a = '\\'
    · subst h1; exact ih
    by_cases h2 : a = '"'
    · subst h2; exact ih
    by_cases h3 : a = ','
    · subst h3; exact ih
    by_cases h4 : a = ' '
    · subst h4; exact ih
    by_cases h5 : a = '\n'
    · subst h5; exact ih
    have he : escChar a = [a] := by simp [escChar, nvramSpecials, h1, h2, h3, h4, h5]
    rw [he, List.singleton_append, wellEscaped_cons_other h1]
    simp [nvramSpecials, h1, h2, h3, h4, h5, ih]

theorem nvram_escape_no_raw_special (s : List Char) :
    ∀ c ∈ _nvram_escape s, c ≠ '"' ∧ c ≠ ',' ∧ c ≠ ' ' ∧ c ≠ '\n' := by
  rw [nvram_escape_eq_flatMap]
  intro c hc
  obtain ⟨a, _, hc2⟩ := List.mem_flatMap.mp hc
  by_cases hs : a ∈ nvramSpecials
  · have he : escChar a = fmtHexByte a.toNat := by simp [escChar, hs]
    rw [he] at hc2
    have h48 := fmtHexByte_toNat_ge a.toNat c hc2
    refine ⟨?_, ?_, ?_, ?_⟩ <;>
    · intro he2
      subst he2
      revert h48
      decide
  · have he : escChar a = [a] := by simp [escChar, hs]
    rw [he] at hc2
    rcases List.mem_singleton.mp hc2 with rfl
    simp only [nvramSpecials, List.mem_cons, List.mem_singleton] at hs
    push_neg at hs
    exact ⟨hs.2.1, hs.2.2.1, hs.2.2.2.1, hs.2.2.2.2.1⟩

/-- Claim C4: `_nvram_escape` replaces every backslash, double-quote,
comma, space and newline by the `\xHH` hex escape of that character, and
its output contains none of those characters unescaped (proved for every
string, in particular every string containing one of them). -/
theorem claim_c4_nvram_escape (s : List Char) :
    _nvram_escape s = s.flatMap escChar ∧
    wellEscaped (_nvram_escape s) = true ∧
    (∀ c ∈ _nvram_escape s, c ≠ '"' ∧ c ≠ ',' ∧ c ≠ ' ' ∧ c ≠ '\n') :=
  ⟨nvram_escape_eq_flatMap s, wellEscaped_nvram_escape s,
   nvram_escape_no_raw_special s⟩

/-- Witness for C4 at the doctest example of the source. -/
theorem claim_c4_witness :
    _nvram_escape "foo, bar".data = "foo\\x2c\\x20bar".data ∧
    wellEscaped (_nvram_escape "foo, bar".data) = true :=
  ⟨((claim_c4_nvram_escape "foo, bar".data).1).trans (by decide),
   (claim_c4_nvram_escape "foo, bar".data).2.1⟩

/-! ### Claim C5: NVRAM section layout -/

/-- Claim C5 (amended): `NVRAM.dumps` is exactly the fixed-order mandatory
part (`[args]`, `[fstab]` one line per image channel, `[mapping]` one line
per non-image channel) followed by the `[env]` section and then the
`[debug]` section; the `[env]` section is present iff an environment
mapping is present (`env is not None`) — even when that mapping is empty —
and the `[debug]` section is present iff a verbosity is present. -/
theorem claim_c5_nvram_sections (nv : NVRAM) :
    nv.dumps = nvramMandatory nv ++ nvramEnvSection nv ++ nvramDebugSection nv ∧
    (nvramEnvSection nv = [] ↔ nv.env = none) ∧
    (nvramDebugSection nv = [] ↔ nv.debug_verbosity = none) := by
  refine ⟨?_, ?_, ?_⟩
  · unfold NVRAM.dumps nvramMandatory nvramEnvSection nvramDebugSection
    cases nv.env <;> cases nv.debug_verbosity <;>
      simp [List.append_assoc]
  · unfold nvramEnvSection
    cases nv.env with
    | none => simp
    | some e =>
      constructor
      · intro h
        exact absurd (List.append_eq_nil.mp h).1 (by decide)
      · intro h
        exact absurd h (by simp)
  · unfold nvramDebugSection
    cases nv.debug_verbosity with
    | none => simp
    | some v =>
      constructor
      · intro h
        exact absurd (List.append_eq_nil.mp (List.append_eq_nil.mp h).1).1
          (by decide)
      · intro h
        exact absurd h (by simp)

/-- Witness for C5 (amended) at a concrete descriptor with one env entry
and a verbosity. -/
theorem claim_c5_witness :
    NVRAM.dumps ⟨["app".data], [], some [("A".data, "b".data)], some 3⟩ =
      nvramMandatory ⟨["app".data], [], some [("A".data, "b".data)], some 3⟩ ++
      nvramEnvSection ⟨["app".data], [], some [("A".data, "b".data)], some 3⟩ ++
      nvramDebugSection ⟨["app".data], [], some [("A".data, "b".data)], some 3⟩ :=
  (claim_c5_nvram_sections _).1

/-- Counterexample to C5 as stated: an NVRAM whose environment mapping is
present but empty still emits the `[env]` section header, so the section is
not emitted "only if the environment mapping is non-empty". -/
theorem claim_c5_counterexample :
    (⟨[], [], some [], none⟩ : NVRAM).env = some [] ∧
    containsSub "[env]".data
      (NVRAM.dumps ⟨[], [], some [], none⟩) = true := by
  constructor
  · rfl
  · decide

/-! ### Claim C7: standard-stream preparation policy -/

theorem resolveStream_policy (p : StreamProbe) (c : Channel) :
    streamPolicy p (resolveStream p c).1 (resolveStream p c).2 := by
  cases hp : p.isatty
  · cases hm : _get_fd_mode p.fdstat with
    | none => simp [resolveStream, streamPolicy, hp, hm]
    | some m => simp [resolveStream, streamPolicy, hp, hm]
  · simp [resolveStream, streamPolicy, hp]

/-- Claim C7: `prepare_channels` applies the three-way policy to each of the
three standard streams: interactive terminal → mode `char` and included in
the mapping set; definite probed descriptor type → that mode and included;
undeterminable type → placed in the manifest set (always, as one of the
first three channels) but omitted from the mapping set. -/
theorem claim_c7_prepare_channels (p1 p2 p3 : StreamProbe)
    (wd nd : List Char) (limits : Limits)
    (fstab_channels : Option (List Channel)) (zv : List Channel) :
    ∃ c1 c2 c3 i1 i2 i3,
      (prepare_channels p1 p2 p3 wd nd limits fstab_channels zv).1 =
        [c1, c2, c3] ++ fstab_channels.getD [] ++ zv ∧
      (prepare_channels p1 p2 p3 wd nd limits fstab_channels zv).2 =
        (if i1 then [c1] else []) ++ (if i2 then [c2] else []) ++
          (if i3 then [c3] else []) ++ fstab_channels.getD [] ++ zv ∧
      streamPolicy p1 c1 i1 ∧ streamPolicy p2 c2 i2 ∧ streamPolicy p3 c3 i3 :=
  ⟨(resolveStream p1 (stdinChan limits)).1,
   (resolveStream p2 (stdoutChan wd nd limits)).1,
   (resolveStream p3 (stderrChan wd nd limits)).1,
   (resolveStream p1 (stdinChan limits)).2,
   (resolveStream p2 (stdoutChan wd nd limits)).2,
   (resolveStream p3 (stderrChan wd nd limits)).2,
   rfl, rfl,
   resolveStream_policy p1 _, resolveStream_policy p2 _,
   resolveStream_policy p3 _⟩

/-- Witness for C7 with all three streams interactive. -/
theorem claim_c7_witness :
    ∃ c1 c2 c3 i1 i2 i3,
      (prepare_channels ⟨true, .chr⟩ ⟨true, .chr⟩ ⟨true, .chr⟩
        "/tmp".data "1".data ⟨1, 2, 3, 4⟩ none []).1 =
        [c1, c2, c3] ++ (none : Option (List Channel)).getD [] ++ [] ∧
      (prepare_channels ⟨true, .chr⟩ ⟨true, .chr⟩ ⟨true, .chr⟩
        "/tmp".data "1".data ⟨1, 2, 3, 4⟩ none []).2 =
        (if i1 then [c1] else []) ++ (if i2 then [c2] else []) ++
          (if i3 then [c3] else []) ++
          (none : Option (List Channel)).getD [] ++ [] ∧
      streamPolicy ⟨true, .chr⟩ c1 i1 ∧ streamPolicy ⟨true, .chr⟩ c2 i2 ∧
      streamPolicy ⟨true, .chr⟩ c3 i3 :=
  claim_c7_prepare_channels ⟨true, .chr⟩ ⟨true, .chr⟩ ⟨true, .chr⟩
    "/tmp".data "1".data ⟨1, 2, 3, 4⟩ none []

/-! ### Claim C9: the runner failure path -/

/-- Claim C9 (amended): whenever the child's process-level exit code is
strictly positive the coordinator writes the diagnostic dump — per regular
file either the name-only line (binary content) or the full text dump,
plus the captured report — to the error stream before the final
`sys.exit`; the failure is not fatal to the runner, which still exits
normally with the application (or, under `getrc`, the process) return
code. -/
theorem claim_c9_runner_failure (env : RunEnv) (h : 0 < env.returncode) :
    ZvRunner_run env =
      print_error env env.returncode ++
        [RunEffect.exitCode (if env.getrc then env.returncode else
          (match parse_return_code env.report with
           | .ok n => n
           | .error _ => -255))] ∧
    RunEffect.errWrite env.report ∈ ZvRunner_run env ∧
    (∀ f ∈ env.files, f.isreg = true →
      is_binary_string (f.content.take 1024) = true →
        RunEffect.errWrite (env.tmpdir ++ "/".data ++ f.name ++
          " is a binary file\n".data) ∈ ZvRunner_run env) ∧
    (∀ f ∈ env.files, f.isreg = true →
      is_binary_string (f.content.take 1024) = false →
        RunEffect.errWrite (dashes 10 ++ f.name ++ dashes 10 ++ "\n".data ++
          f.content ++ "\n".data ++ dashes 25 ++ "\n".data) ∈
          ZvRunner_run env) := by
  have hrun : ZvRunner_run env =
      print_error env env.returncode ++
        [RunEffect.exitCode (if env.getrc then env.returncode else
          (match parse_return_code env.report with
           | .ok n => n
           | .error _ => -255))] := by
    unfold ZvRunner_run
    rw [if_pos h]
  refine ⟨hrun, ?_, ?_, ?_⟩
  · rw [hrun]
    refine List.mem_append_left _ ?_
    unfold print_error
    exact List.mem_append_right _ (List.mem_cons_self _ _)
  · intro f hf hreg hbin
    rw [hrun]
    refine List.mem_append_left _ ?_
    unfold print_error
    refine List.mem_append_left _ ?_
    refine List.mem_flatMap.mpr ⟨f, hf, ?_⟩
    rw [if_pos hreg, if_pos hbin]
    exact List.mem_singleton_self _
  · intro f hf hreg hbin
    rw [hrun]
    refine List.mem_append_left _ ?_
    unfold print_error
    refine List.mem_append_left _ ?_
    refine List.mem_flatMap.mpr ⟨f, hf, ?_⟩
    rw [if_pos hreg, if_neg (by rw [hbin]; exact Bool.false_ne_true)]
    exact List.mem_singleton_self _

/-- Witness for C9 (amended) at a concrete failed run. -/
theorem claim_c9_witness :
    RunEffect.errWrite "a\nb\n3\n".data ∈
      ZvRunner_run ⟨2, "a\nb\n3\n".data, [⟨"log".data, true, "hi".data⟩],
        false, "/t".data⟩ :=
  (claim_c9_runner_failure _ (by decide)).2.1

/-- Counterexample to C9 as stated: a child killed by a signal has the
non-zero process-level exit code -9, but `if returncode > 0` skips the
diagnostic dump entirely — the runner writes nothing to the error stream
and simply exits with the parsed application code. -/
theorem claim_c9_counterexample :
    (⟨-9, "a\nb\n3\n".data, [⟨"log".data, true, "hi".data⟩], false,
      "/t".data⟩ : RunEnv).returncode ≠ 0 ∧
    ZvRunner_run ⟨-9, "a\nb\n3\n".data, [⟨"log".data, true, "hi".data⟩],
      false, "/t".data⟩ = [RunEffect.exitCode 3] := by
  constructor
  · decide
  · decide

/-! ### Claim C2: ordinal allocation in `process_args` -/

theorem takeWhile_all_append {p : Char → Bool} :
    ∀ {l₁ : List Char}, (∀ c ∈ l₁, p c = true) → ∀ {b : Char},
      p b = false → ∀ (l₂ : List Char),
      (l₁ ++ b :: l₂).takeWhile p = l₁
  | [], _, b, hb, l₂ => by simp [List.takeWhile, hb]
  | c :: cs, h, b, hb, l₂ => by
    have hc : p c = true := h c (List.mem_cons_self c cs)
    simp only [List.cons_append, List.takeWhile, hc]
    rw [show (cs.append (b :: l₂)) = cs ++ b :: l₂ from rfl,
      takeWhile_all_append (fun x hx => h x (List.mem_cons_of_mem c hx)) hb l₂]

theorem ordinalOfAlias_mkDevAlias (o : Nat) (fn : List Char) :
    ordinalOfAlias (mkDevAlias o fn) = o := by
  unfold ordinalOfAlias mkDevAlias
  simp only [List.append_assoc]
  rw [show (5 : Nat) = ("/dev/".data).length from rfl, List.drop_left,
    show (".".data ++ fn) = '.' :: fn from rfl,
    takeWhile_all_append (natToDigits_all_digits o) (by decide) fn,
    digitsVal_natToDigits]

theorem processCmdArg_env (A : List Char → List Char) (L : Limits)
    (st : ZvProcState) (rest k v : List Char)
    (h : envMatch rest = some (k, v)) :
    processCmdArg A L st ('@' :: rest) =
      { st with env := envInsert st.env k v } := by
  simp [processCmdArg, h]

theorem processCmdArg_file (A : List Char → List Char) (L : Limits)
    (st : ZvProcState) (rest : List Char) (h : envMatch rest = none) :
    processCmdArg A L st ('@' :: rest) =
      { st with
        processed_cmd_args := st.processed_cmd_args ++
          [mkDevAlias st.ordinal (basename (A rest))],
        channels := st.channels ++
          [fileChannel L (A rest) (mkDevAlias st.ordinal (basename (A rest)))],
        ordinal := st.ordinal + 1 } := by
  simp [processCmdArg, h]

theorem processCmdArg_other (A : List Char → List Char) (L : Limits)
    (st : ZvProcState) (arg : List Char) (h : ∀ rest, arg ≠ '@' :: rest) :
    processCmdArg A L st arg =
      { st with processed_cmd_args := st.processed_cmd_args ++ [arg] } := by
  match arg with
  | [] => rfl
  | c :: cs =>
    have hc : c ≠ '@' := fun he => h cs (by rw [he])
    rw [processCmdArg]
    exact fun rest he => hc (by injection he with h1 _)

theorem isFileTok_env {rest k v : List Char} (h : envMatch rest = some (k, v)) :
    isFileTok ('@' :: rest) = false := by
  simp [isFileTok, h]

theorem isFileTok_file {rest : List Char} (h : envMatch rest = none) :
    isFileTok ('@' :: rest) = true := by
  simp [isFileTok, h]

theorem isFileTok_other {arg : List Char} (h : ∀ rest, arg ≠ '@' :: rest) :
    isFileTok arg = false := by
  match arg with
  | [] => rfl
  | c :: cs =>
    have hc : c ≠ '@' := fun he => h cs (by rw [he])
    rw [isFileTok]
    exact fun rest he => hc (by injection he with h1 _)

theorem ordRange_append (m : Nat) :
    ∀ (n a : Nat), ordRange a n ++ ordRange (a + n) m = ordRange a (n + m)
  | 0, a => by simp [ordRange]
  | k + 1, a =>
    calc ordRange a (k + 1) ++ ordRange (a + (k + 1)) m
        = a :: (ordRange (a + 1) k ++ ordRange ((a + 1) + k) m) := by
          rw [show a + (k + 1) = (a + 1) + k from by omega]; rfl
      _ = a :: ordRange (a + 1) (k + m) := by rw [ordRange_append m k (a + 1)]
      _ = ordRange a (k + 1 + m) := by
          rw [show k + 1 + m = (k + m) + 1 from by omega]; rfl

/-- The command-argument loop: each marked non-environment token appends one
file channel carrying the then-current ordinal; the ordinal advances once
per such token. -/
theorem cmdFold_spec (A : List Char → List Char) (L : Limits) :
    ∀ (args : List (List Char)) (st : ZvProcState),
      ((args.foldl (processCmdArg A L) st).channels.map channelOrdinal =
        st.channels.map channelOrdinal ++
          ordRange st.ordinal (args.countP isFileTok)) ∧
      ((args.foldl (processCmdArg A L) st).channels.map Channel.is_image =
        st.channels.map Channel.is_image ++
          List.replicate (args.countP isFileTok) false) ∧
      ((args.foldl (processCmdArg A L) st).ordinal =
        st.ordinal + args.countP isFileTok) := by
  intro args
  induction args with
  | nil => intro st; simp [ordRange]
  | cons a args ih =>
    intro st
    simp only [List.foldl_cons, List.countP_cons]
    cases a with
    | nil =>
      rw [processCmdArg_other A L st [] (fun rest h => List.noConfusion h),
        isFileTok_other (fun rest h => List.noConfusion h)]
      simpa using ih { st with processed_cmd_args := st.processed_cmd_args ++ [[]] }
    | cons c cs =>
      by_cases hc : c = '@'
      · subst hc
        cases hm : envMatch cs with
        | some kv =>
          rw [processCmdArg_env A L st cs kv.1 kv.2 (by rw [hm]),
            isFileTok_env (show envMatch cs = some (kv.1, kv.2) from by rw [hm])]
          simpa using ih { st with env := envInsert st.env kv.1 kv.2 }
        | none =>
          rw [processCmdArg_file A L st cs hm, isFileTok_file hm]
          obtain ⟨h1, h2, h3⟩ := ih
            { st with
              processed_cmd_args := st.processed_cmd_args ++
                [mkDevAlias st.ordinal (basename (A cs))],
              channels := st.channels ++
                [fileChannel L (A cs) (mkDevAlias st.ordinal (basename (A cs)))],
              ordinal := st.ordinal + 1 }
          refine ⟨?_, ?_, ?_⟩
          · rw [h1]
            show (st.channels ++ [fileChannel L (A cs)
                (mkDevAlias st.ordinal (basename (A cs)))]).map channelOrdinal ++
              ordRange (st.ordinal + 1) (args.countP isFileTok) = _
            simp only [List.map_append, List.map_cons, List.map_nil,
              List.append_assoc, List.singleton_append, channelOrdinal]
            rw [show (fileChannel L (A cs)
                (mkDevAlias st.ordinal (basename (A cs)))).alias_ =
              mkDevAlias st.ordinal (basename (A cs)) from rfl,
              ordinalOfAlias_mkDevAlias]
            simp [ordRange]
          · rw [h2]
            show (st.channels ++ [fileChannel L (A cs)
                (mkDevAlias st.ordinal (basename (A cs)))]).map Channel.is_image ++
              List.replicate (args.countP isFileTok) false = _
            simp only [List.map_append, List.map_cons, List.map_nil,
              List.append_assoc, List.singleton_append]
            rw [show (fileChannel L (A cs)
                (mkDevAlias st.ordinal (basename (A cs)))).is_image = false from rfl]
            simp [List.replicate_succ]
          · rw [h3]
            show st.ordinal + 1 + args.countP isFileTok = _
            simp
            omega
      · rw [processCmdArg_other A L st (c :: cs)
            (fun rest he => hc (by injection he with h1 _)),
          isFileTok_other (fun rest he => hc (by injection he with h1 _))]
        simpa using ih
          { st with processed_cmd_args := st.processed_cmd_args ++ [c :: cs] }

/-- The image loop: each declared image appends one image channel carrying
the then-current ordinal; the ordinal advances once per image. -/
theorem imgFold_spec (A : List Char → List Char) (L : Limits) :
    ∀ (trips : List (List Char × List Char × List Char)) (st : ZvProcState),
      ((trips.foldl (processImage A L) st).channels.map channelOrdinal =
        st.channels.map channelOrdinal ++ ordRange st.ordinal trips.length) ∧
      ((trips.foldl (processImage A L) st).channels.map Channel.is_image =
        st.channels.map Channel.is_image ++ List.replicate trips.length true) ∧
      (trips.foldl (processImage A L) st).ordinal = st.ordinal + trips.length := by
  intro trips
  induction trips with
  | nil => intro st; simp [ordRange]
  | cons t ts ih =>
    intro st
    simp only [List.foldl_cons, List.length_cons]
    obtain ⟨h1, h2, h3⟩ := ih (processImage A L st t)
    refine ⟨?_, ?_, ?_⟩
    · rw [h1]
      show (st.channels ++ [imageChannel L (A t.1)
          (mkDevAlias st.ordinal (basename (A t.1))) t.2.2 t.2.1]).map
          channelOrdinal ++ ordRange (st.ordinal + 1) ts.length = _
      simp only [List.map_append, List.map_cons, List.map_nil,
        List.append_assoc, List.singleton_append, channelOrdinal]
      rw [show (imageChannel L (A t.1)
          (mkDevAlias st.ordinal (basename (A t.1))) t.2.2 t.2.1).alias_ =
        mkDevAlias st.ordinal (basename (A t.1)) from rfl,
        ordinalOfAlias_mkDevAlias]
      simp [ordRange]
    · rw [h2]
      show (st.channels ++ [imageChannel L (A t.1)
          (mkDevAlias st.ordinal (basename (A t.1))) t.2.2 t.2.1]).map
          Channel.is_image ++ List.replicate ts.length true = _
      simp only [List.map_append, List.map_cons, List.map_nil,
        List.append_assoc, List.singleton_append]
      rw [show (imageChannel L (A t.1)
          (mkDevAlias st.ordinal (basename (A t.1))) t.2.2 t.2.1).is_image =
        true from rfl]
      simp [List.replicate_succ]
    · rw [h3]
      show st.ordinal + 1 + ts.length = _
      omega

theorem process_images_aux_length :
    ∀ (imgs : List (List Char)) (prev : Option (List Char))
      (l : List (List Char × List Char × List Char)),
      _process_images_aux prev imgs = some l → l.length = imgs.length := by
  intro imgs
  induction imgs with
  | nil =>
    intro prev l h
    simp only [_process_images_aux, Option.some.injEq] at h
    subst h
    rfl
  | cons img rest ih =>
    intro prev l h
    unfold _process_images_aux at h
    cases ht : _process_image_tuple prev img with
    | none =>
      rw [ht] at h
      exact absurd h (by simp [Option.elim])
    | some t =>
      rw [ht] at h
      simp only [Option.elim] at h
      obtain ⟨l2, hl2, rfl⟩ := Option.map_eq_some'.mp h
      simp [ih _ _ hl2]

/-- Claim C2: with caller-supplied base ordinal `N`, `k` marker-prefixed
non-environment file tokens and `m` declared archive images,
`process_args` allocates alias ordinals exactly `N .. N+k+m-1`: file
channels first, left-to-right, then image channels in declaration order
(the embedding is a pure function, so identical inputs always yield this
same output, giving the claimed determinism). -/
theorem claim_c2_ordinal_allocation (A : List Char → List Char) (L : Limits)
    (cmd_args : List (List Char)) (zvm_image : Option (List (List Char)))
    (N : Nat) (st : ZvProcState)
    (h : process_args A L cmd_args zvm_image N = some st) :
    st.channels.map channelOrdinal =
      ordRange N (cmd_args.countP isFileTok + (zvm_image.getD []).length) ∧
    st.channels.map Channel.is_image =
      List.replicate (cmd_args.countP isFileTok) false ++
        List.replicate ((zvm_image.getD []).length) true := by
  unfold process_args at h
  cases zvm_image with
  | none =>
    simp only [Option.some.injEq] at h
    subst h
    obtain ⟨h1, h2, h3⟩ := cmdFold_spec A L cmd_args ⟨[], [], [], N⟩
    constructor
    · rw [h1]
      simp
    · rw [h2]
      simp
  | some imgs =>
    obtain ⟨trips, htrips, rfl⟩ := Option.map_eq_some'.mp h
    have hlen : trips.length = imgs.length :=
      process_images_aux_length imgs none trips htrips
    obtain ⟨c1, c2, c3⟩ := cmdFold_spec A L cmd_args ⟨[], [], [], N⟩
    obtain ⟨i1, i2, i3⟩ := imgFold_spec A L trips
      (cmd_args.foldl (processCmdArg A L) ⟨[], [], [], N⟩)
    constructor
    · rw [i1, c1, c3, hlen]
      show [] ++ ordRange N (cmd_args.countP isFileTok) ++
        ordRange (N + cmd_args.countP isFileTok) imgs.length = _
      rw [List.nil_append, ordRange_append]
      rfl
    · rw [i2, c2, hlen]
      show [] ++ List.replicate (cmd_args.countP isFileTok) false ++
        List.replicate imgs.length true = _
      rw [List.nil_append]
      rfl

/-- Witness for C2: one plain token, one file token, one environment token
and one declared image, with base ordinal 2, allocate ordinals `[2, 3]`. -/
theorem claim_c2_witness :
    ((process_args (fun s => "/abs/".data ++ s) ⟨1, 2, 3, 4⟩
        ["python".data, "@foo.txt".data, "@A=b".data]
        (some ["/x/i.tar,/usr,rw".data]) 2).getD default).channels.map
      channelOrdinal = ordRange 2 2 :=
  (claim_c2_ordinal_allocation (fun s => "/abs/".data ++ s) ⟨1, 2, 3, 4⟩
    ["python".data, "@foo.txt".data, "@A=b".data]
    (some ["/x/i.tar,/usr,rw".data]) 2 _ rfl).1

/-! ### Claim C6: `@NAME=value` environment declarations -/

theorem envLookup_insert_same (e : List (List Char × List Char))
    (k v : List Char) : envLookup k (envInsert e k v) = some v := by
  induction e with
  | nil => simp [envInsert, envLookup]
  | cons p e ih =>
    obtain ⟨k2, v2⟩ := p
    by_cases hk : k2 = k
    · simp [envInsert, hk, envLookup]
    · simp [envInsert, hk, envLookup, ih]

theorem envLookup_insert_other {k kk : List Char} (h : kk ≠ k)
    (e : List (List Char × List Char)) (v : List Char) :
    envLookup k (envInsert e kk v) = envLookup k e := by
  induction e with
  | nil => simp [envInsert, envLookup, h]
  | cons p e ih =>
    obtain ⟨k2, v2⟩ := p
    by_cases hk : k2 = kk
    · simp [envInsert, hk, envLookup, h]
    · by_cases hk2 : k2 = k
      · simp [envInsert, hk, envLookup, hk2, Ne.symm h]
      · simp [envInsert, hk, envLookup, hk2, ih]

theorem processCmdArg_env_indep (A : List Char → List Char) (L : Limits)
    (a : List Char) (s₁ s₂ : ZvProcState)
    (h1 : s₁.channels = s₂.channels)
    (h2 : s₁.processed_cmd_args = s₂.processed_cmd_args)
    (h3 : s₁.ordinal = s₂.ordinal) :
    (processCmdArg A L s₁ a).channels = (processCmdArg A L s₂ a).channels ∧
    (processCmdArg A L s₁ a).processed_cmd_args =
      (processCmdArg A L s₂ a).processed_cmd_args ∧
    (processCmdArg A L s₁ a).ordinal = (processCmdArg A L s₂ a).ordinal := by
  cases a with
  | nil =>
    rw [processCmdArg_other A L s₁ [] (fun rest h => List.noConfusion h),
      processCmdArg_other A L s₂ [] (fun rest h => List.noConfusion h)]
    exact ⟨h1, by simp [h2], h3⟩
  | cons c cs =>
    by_cases hc : c = '@'
    · subst hc
      cases hm : envMatch cs with
      | some kv =>
        rw [processCmdArg_env A L s₁ cs kv.1 kv.2 (by rw [hm]),
          processCmdArg_env A L s₂ cs kv.1 kv.2 (by rw [hm])]
        exact ⟨h1, h2, h3⟩
      | none =>
        rw [processCmdArg_file A L s₁ cs hm, processCmdArg_file A L s₂ cs hm]
        refine ⟨?_, ?_, ?_⟩ <;> simp [h1, h2, h3]
    · rw [processCmdArg_other A L s₁ (c :: cs)
          (fun rest he => hc (by injection he with hh _)),
        processCmdArg_other A L s₂ (c :: cs)
          (fun rest he => hc (by injection he with hh _))]
      exact ⟨h1, by simp [h2], h3⟩

/-- The channel list, processed argument vector and running ordinal of the
argument loop do not depend on the environment component of the state. -/
theorem cmdFold_env_indep (A : List Char → List Char) (L : Limits) :
    ∀ (args : List (List Char)) (s₁ s₂ : ZvProcState),
      s₁.channels = s₂.channels →
      s₁.processed_cmd_args = s₂.processed_cmd_args →
      s₁.ordinal = s₂.ordinal →
      ((args.foldl (processCmdArg A L) s₁).channels =
        (args.foldl (processCmdArg A L) s₂).channels ∧
       (args.foldl (processCmdArg A L) s₁).processed_cmd_args =
        (args.foldl (processCmdArg A L) s₂).processed_cmd_args ∧
       (args.foldl (processCmdArg A L) s₁).ordinal =
        (args.foldl (processCmdArg A L) s₂).ordinal) := by
  intro args
  induction args with
  | nil => exact fun s₁ s₂ h1 h2 h3 => ⟨h1, h2, h3⟩
  | cons a args ih =>
    intro s₁ s₂ h1 h2 h3
    simp only [List.foldl_cons]
    obtain ⟨g1, g2, g3⟩ := processCmdArg_env_indep A L a s₁ s₂ h1 h2 h3
    exact ih _ _ g1 g2 g3

/-- Tokens that are not `@NAME=...` declarations for key `k` leave the
binding of `k` untouched. -/
theorem cmdFold_env_lookup (A : List Char → List Char) (L : Limits)
    (k : List Char) :
    ∀ (args : List (List Char)) (st : ZvProcState),
      (∀ t ∈ args, isEnvTokKey k t = false) →
      envLookup k (args.foldl (processCmdArg A L) st).env =
        envLookup k st.env := by
  intro args
  induction args with
  | nil => intro st _; rfl
  | cons a args ih =>
    intro st hall
    simp only [List.foldl_cons]
    rw [ih _ (fun t ht => hall t (List.mem_cons_of_mem a ht))]
    have ha := hall a (List.mem_cons_self a args)
    cases a with
    | nil =>
      rw [processCmdArg_other A L st [] (fun rest h => List.noConfusion h)]
    | cons c cs =>
      by_cases hc : c = '@'
      · subst hc
        cases hm : envMatch cs with
        | some kv =>
          have hne : kv.1 ≠ k := by
            rw [show ('@' :: cs) = '@' :: cs from rfl] at ha
            simp only [isEnvTokKey, hm, decide_eq_false_iff_not] at ha
            exact ha
          rw [processCmdArg_env A L st cs kv.1 kv.2 (by rw [hm])]
          exact envLookup_insert_other hne st.env kv.2
        | none =>
          rw [processCmdArg_file A L st cs hm]
      · rw [processCmdArg_other A L st (c :: cs)
          (fun rest he => hc (by injection he with hh _))]

/-- `ENV_MATCH` on a token of the explicit form `NAME=value`: the key is
the run of `[_A-Z0-9]` characters and the captured value is the portion of
`value` before the first newline (`.*` does not cross a newline). -/
theorem envMatch_explicit (k w : List Char) (hk : k ≠ [])
    (hkc : ∀ c ∈ k, isEnvChar c = true) :
    envMatch (k ++ '=' :: w) = some (k, w.takeWhile (fun c => c ≠ '\n')) := by
  have ht : (k ++ '=' :: w).takeWhile isEnvChar = k :=
    takeWhile_all_append hkc (by decide) w
  unfold envMatch
  simp only [ht, List.drop_left, if_neg hk]

/-- Claim C6 (amended): a marker-prefixed token `@NAME=value` whose NAME is
a nonempty `[_A-Z0-9]` run is removed from the processed argument vector
and allocates no channel (channels, processed vector and ordinal are
exactly those of the same run without the token), and NAME is bound in the
environment mapping to value truncated at its first newline — the full
value whenever it contains no newline. -/
theorem claim_c6_env_declaration (A : List Char → List Char) (L : Limits)
    (st0 : ZvProcState) (pre post : List (List Char)) (k w : List Char)
    (hk : k ≠ []) (hkc : ∀ c ∈ k, isEnvChar c = true)
    (hpost : ∀ t ∈ post, isEnvTokKey k t = false) :
    ((pre ++ ('@' :: (k ++ '=' :: w)) :: post).foldl
        (processCmdArg A L) st0).channels =
      ((pre ++ post).foldl (processCmdArg A L) st0).channels ∧
    ((pre ++ ('@' :: (k ++ '=' :: w)) :: post).foldl
        (processCmdArg A L) st0).processed_cmd_args =
      ((pre ++ post).foldl (processCmdArg A L) st0).processed_cmd_args ∧
    envLookup k ((pre ++ ('@' :: (k ++ '=' :: w)) :: post).foldl
        (processCmdArg A L) st0).env =
      some (w.takeWhile (fun c => c ≠ '\n')) := by
  have hm := envMatch_explicit k w hk hkc
  simp only [List.foldl_append, List.foldl_cons]
  rw [processCmdArg_env A L _ _ k (w.takeWhile (fun c => c ≠ '\n')) hm]
  obtain ⟨g1, g2, _⟩ := cmdFold_env_indep A L post
    { pre.foldl (processCmdArg A L) st0 with
      env := envInsert (pre.foldl (processCmdArg A L) st0).env k
        (w.takeWhile (fun c => c ≠ '\n')) }
    (pre.foldl (processCmdArg A L) st0) rfl rfl rfl
  refine ⟨g1, g2, ?_⟩
  rw [cmdFold_env_lookup A L k post _ hpost]
  exact envLookup_insert_same _ k _

/-- Witness for C6 at the spec example `@USERNAME=admin`. -/
theorem claim_c6_witness :
    envLookup "USERNAME".data
      ((([] ++ ('@' :: ("USERNAME".data ++ '=' :: "admin".data)) :: []).foldl
        (processCmdArg (fun s => s) ⟨1, 2, 3, 4⟩) ⟨[], [], [], 1⟩).env) =
      some ("admin".data.takeWhile (fun c => c ≠ '\n')) :=
  (claim_c6_env_declaration (fun s => s) ⟨1, 2, 3, 4⟩ ⟨[], [], [], 1⟩ [] []
    "USERNAME".data "admin".data (by decide) (by decide)
    (fun t ht => absurd ht (List.not_mem_nil t))).2.2

/-- Counterexample to C6 as stated: for the token `@A=b\nc` (an `@NAME=value`
token with value `b\nc`), the environment mapping receives `A → "b"` — the
value truncated at the newline — not `A → value`. -/
theorem claim_c6_counterexample :
    (["@A=b\nc".data].foldl (processCmdArg (fun s => s) ⟨1, 2, 3, 4⟩)
      ⟨[], [], [], 1⟩).env = [("A".data, "b".data)] ∧
    "b".data ≠ "b\nc".data := by
  constructor
  · decide
  · decide

end Zvsh
